import Mathlib

/-!
Shallow embedding of the emvscode-web extension (TypeScript, VS Code web
extension for Mizar).  JavaScript numbers are modelled as exact rationals
(`ℚ`) or integers (`ℤ`/`ℕ`); all arithmetic in the embedded fragments is
exact in the source's operating range.  Fallible operations return
`Except`, mirroring thrown exceptions / rejected promises.
-/

deriving instance DecidableEq for Except

namespace Emvscode

/-! ## calculateProgress.ts -/

/-- Constant `MAX_OUTPUT = 50`: maximum number of progress markers per phase
(src/web/calculateProgress.ts line 2). -/
def MAX_OUTPUT : ℤ := 50

/-- Embedding of `calculateProgressDiff` (src/web/calculateProgress.ts
lines 10-23).  `progressDiff = Math.floor((MAX_OUTPUT*percent)/100) - n`;
only the upper bound is clamped: `if (n + diff > MAX_OUTPUT) diff := MAX_OUTPUT - n`. -/
def calculateProgressDiff (progressPercent : ℚ) (numberOfProgress : ℤ) : ℤ :=
  let progressDiff := ⌊((MAX_OUTPUT : ℚ) * progressPercent) / 100⌋ - numberOfProgress
  if numberOfProgress + progressDiff > MAX_OUTPUT then MAX_OUTPUT - numberOfProgress
  else progressDiff

/-! ## mizarFunctions.ts: the polling schedule

`mizarVerify` (lines 204-209) installs `setInterval(updateProgress, 1000)`
and additionally calls `updateProgress()` once immediately, so while the job
stays non-terminal and unqueued a poll request is issued at
t = 0, 1000, 2000, … milliseconds, each tick firing whether or not the
previous request has settled.  A request issued at time `i` whose response
latency is `d` is in flight during `[i, i+d)`. -/

/-- Times (ms) at which the first `n` poll requests are issued:
one at registration (line 209) and then every 1000 ms (line 208). -/
def pollIssueTimes (n : ℕ) : List ℕ :=
  (List.range n).map (fun k => 1000 * k)

/-- Number of poll requests in flight at time `t`, when every response takes
`d` ms to settle and `n` requests have been scheduled. -/
def pollsInFlight (d t n : ℕ) : ℕ :=
  ((pollIssueTimes n).filter (fun i => i ≤ t ∧ t < i + d)).length

end Emvscode

namespace Emvscode

/-! ## JavaScript string primitives

The sync engine manipulates paths with `String.prototype.indexOf`,
`substring`, `replace` (first occurrence), `includes` and `split`.  Paths are
ASCII, so JS UTF-16 code-unit indices coincide with character indices. -/

/-- JS `hay.indexOf(needle)`: position of the first occurrence, `none` for JS's
`-1`. -/
def jsIndexOf (hay needle : String) : Option ℕ :=
  (List.range (hay.data.length + 1)).find?
    (fun i => needle.data.isPrefixOf (hay.data.drop i))

/-- JS `hay.includes(needle)`. -/
def jsIncludes (hay needle : String) : Bool :=
  (jsIndexOf hay needle).isSome

/-- JS `s.substring(i)` for a nonnegative index (JS clamps negative indices to
0, which the caller handles through the `Option` of `jsIndexOf`). -/
def jsSubstringFrom (s : String) (i : ℕ) : String :=
  String.mk (s.data.drop i)

/-- JS `s.replace(pat, '')` for a plain-string pattern: removes the first
occurrence only. -/
def jsReplaceFirst (s pat : String) : String :=
  match jsIndexOf s pat with
  | some i => String.mk (s.data.take i ++ s.data.drop (i + pat.data.length))
  | none => s

/-- Splitting a character list at every occurrence of the separator. -/
def splitOnCharList (c : Char) : List Char → List (List Char)
  | [] => [[]]
  | x :: xs =>
    let r := splitOnCharList c xs
    if x = c then [] :: r
    else
      match r with
      | h :: t => (x :: h) :: t
      | [] => [[x]]

/-- JS `s.split(sep, limit)` for a single-character separator. -/
def jsSplit (s : String) (sep : Char) (limit : ℕ) : List String :=
  ((splitOnCharList sep s.data).map String.mk).take limit

/-! ## autoCommit.ts: the GitHub REST surface

The Octokit calls are modelled by an oracle of pre-arranged responses; a
response is `.ok v` or `.error status` (a thrown `RequestError` carrying
`error.status`). -/

/-- The decoded remote file at a path on the `verifier` branch: `content`
is the base64-decoded text computed at autoCommit.ts lines 327-342, `sha`
the file sha used by `commitDeletions` (lines 241-250). -/
structure RemoteFile where
  content : String
  sha : String
deriving DecidableEq, Repr

/-- Oracle for the git-hosting REST surface consumed by autoCommit.ts. -/
structure GitApi where
  listBranchesRes : Except ℕ (List String)
  defaultBranchRes : Except ℕ String
  getRefSha : String → Except ℕ String
  createRefRes : Except ℕ Unit
  getContent : String → Except ℕ RemoteFile
  createBlob : String → Except ℕ String
  getBranchHeadShaRes : Except ℕ String
  createTreeRes : Except ℕ String
  createCommitRes : Except ℕ String
  updateRefRes : Except ℕ Unit
  getBlob : String → Except ℕ String

/-- A JavaScript `Promise` value that has not been awaited.  Interpolating
it into a template literal stringifies it as `"[object Promise]"`. -/
structure JSPromise (α : Type) where
  val : α

/-- Template-literal stringification of an un-awaited promise. -/
def jsPromiseToString {α : Type} (_ : JSPromise α) : String :=
  "[object Promise]"

/-- Embedding of `getDefaultBranch` (autoCommit.ts lines 24-34).  It is an
`async` function, so a call that is not awaited yields a `JSPromise`. -/
def getDefaultBranch (api : GitApi) : JSPromise (Except ℕ String) :=
  ⟨api.defaultBranchRes⟩

/-- Observable calls made by `ensureBranchExists`. -/
structure EnsureLog where
  refLookups : List String := []
  createRefShas : List String := []
deriving DecidableEq, Repr

/-- Embedding of `ensureBranchExists` (autoCommit.ts lines 44-77).  Note
line 61: `const baseBranch = getDefaultBranch(octokit, owner, repo);` is not
awaited, so the template literal `` `heads/${baseBranch}` `` at line 65
interpolates the promise object itself.  The surrounding `catch` rethrows
every error (line 75). -/
def ensureBranchExists (api : GitApi) : Except ℕ Unit × EnsureLog :=
  match api.listBranchesRes with
  | .error s => (.error s, {})
  | .ok existingBranches =>
    let branchExists := existingBranches.contains "verifier"
    if branchExists then (.ok (), {})
    else
      let baseBranch := getDefaultBranch api
      let refName := "heads/" ++ jsPromiseToString baseBranch
      match api.getRefSha refName with
      | .error s => (.error s, {refLookups := [refName]})
      | .ok sha =>
        match api.createRefRes with
        | .error s => (.error s, {refLookups := [refName], createRefShas := [sha]})
        | .ok _ => (.ok (), {refLookups := [refName], createRefShas := [sha]})

/-- The repository-relative path computed at autoCommit.ts lines 306-309:
`changedFilePath.substring(changedFilePath.indexOf(repo + '/')).replace(repo + '/', '')`
(JS `indexOf` returning -1 makes `substring` start at 0). -/
def repoFilePathOf (repo changedFilePath : String) : String :=
  jsReplaceFirst
    (match jsIndexOf changedFilePath (repo ++ "/") with
      | some i => jsSubstringFrom changedFilePath i
      | none => changedFilePath)
    (repo ++ "/")

/-- One entry of the `tree:` array passed to `git.createTree` (autoCommit.ts
lines 351-356): `type: 'blob'` and `mode: '100644'` are constant, so only
the path and blob sha vary. -/
structure TreeEntry where
  path : String
  sha : String
deriving DecidableEq, Repr

/-- Observable effects of one `commitChanges` cycle. -/
structure CycleLog where
  blobCalls : List String := []
  getContentPaths : List String := []
  treeCalls : List (List TreeEntry × String) := []
  commitCalls : List (String × List String) := []
  refUpdateCalls : List String := []
  errorMessages : ℕ := 0
  infoMessages : List String := []
  deletionOutcome : Option (Except ℕ (List (String × String))) := none
deriving DecidableEq, Repr

/-- Accumulator threaded through the `for` loop of `commitChanges`:
`treeList`, `deletedFilePaths` and the effect log. -/
abbrev CycleAcc := List TreeEntry × List String × CycleLog

/-- Embedding of the body of the `for` loop of `commitChanges`
(autoCommit.ts lines 304-385) for one `changedFilePath`.  The
`openTextDocument` failure callback (line 380-382) records a deletion; the
inner `try/catch` (lines 320-378) swallows a non-404 error with an error
message, retries `createBlob` on a 404, and lets a failure raised inside
the `catch` itself propagate (rejecting the awaited `then`-promise, which
the outer `catch` of `commitChanges` then handles).  The
`path.relative`/`Uri.joinPath` round trip (lines 311-316) resolves back to
`changedFilePath` itself for absolute paths, so the document oracle is
keyed by `changedFilePath`. -/
def processChangedPath (api : GitApi) (openDoc : String → Except ℕ String)
    (repositoryPath repo : String) (acc : CycleAcc) (changedFilePath : String) :
    Except (ℕ × CycleLog) CycleAcc :=
  let (treeList, deletedFilePaths, log) := acc
  if jsIncludes changedFilePath repositoryPath then
    let repoFilePath := repoFilePathOf repo changedFilePath
    match openDoc changedFilePath with
    | .error _ => .ok (treeList, deletedFilePaths ++ [repoFilePath], log)
    | .ok documentText =>
      let log := {log with getContentPaths := log.getContentPaths ++ [repoFilePath]}
      match api.getContent repoFilePath with
      | .ok existingFile =>
        if existingFile.content ≠ documentText then
          let log := {log with blobCalls := log.blobCalls ++ [documentText]}
          match api.createBlob documentText with
          | .ok blobSha =>
            .ok (treeList ++ [⟨repoFilePath, blobSha⟩], deletedFilePaths, log)
          | .error s =>
            if s = 404 then
              let log := {log with blobCalls := log.blobCalls ++ [documentText]}
              match api.createBlob documentText with
              | .ok blobSha =>
                .ok (treeList ++ [⟨repoFilePath, blobSha⟩], deletedFilePaths, log)
              | .error s2 => .error (s2, log)
            else
              .ok (treeList, deletedFilePaths,
                   {log with errorMessages := log.errorMessages + 1})
        else .ok (treeList, deletedFilePaths, log)
      | .error s =>
        if s = 404 then
          let log := {log with blobCalls := log.blobCalls ++ [documentText]}
          match api.createBlob documentText with
          | .ok blobSha =>
            .ok (treeList ++ [⟨repoFilePath, blobSha⟩], deletedFilePaths, log)
          | .error s2 => .error (s2, log)
        else
          .ok (treeList, deletedFilePaths,
               {log with errorMessages := log.errorMessages + 1})
  else .ok acc

/-- The `for` loop of `commitChanges` over the whole (mml.ini-extended)
change list; a propagating error aborts the remaining iterations. -/
def processChangedPaths (api : GitApi) (openDoc : String → Except ℕ String)
    (repositoryPath repo : String) :
    List String → CycleAcc → Except (ℕ × CycleLog) CycleAcc
  | [], acc => .ok acc
  | p :: rest, acc =>
    match processChangedPath api openDoc repositoryPath repo acc p with
    | .error e => .error e
    | .ok acc' => processChangedPaths api openDoc repositoryPath repo rest acc'

/-- Embedding of `commitDeletions` (autoCommit.ts lines 226-265): for each
path, `getContent` and `getBlob` are awaited and their failures rethrown,
while the final `deleteFile` call (line 253) is not awaited, so its outcome
is never observed.  Returns the list of `deleteFile` calls (path, current
blob sha used as the precondition). -/
def commitDeletions (api : GitApi) (deletedFilePaths : List String) :
    Except ℕ (List (String × String)) :=
  deletedFilePaths.foldlM
    (fun acc deletedFilePath =>
      match api.getContent deletedFilePath with
      | .error s => .error s
      | .ok existingFile =>
        match api.getBlob existingFile.sha with
        | .error s => .error s
        | .ok blobSha => .ok (acc ++ [(deletedFilePath, blobSha)]))
    []

/-- Result of one `commitChanges` cycle: the outcome (`.error s` when the
function rethrows), the persisted `changedFilePaths` value afterwards, and
the effect log. -/
structure CycleResult where
  outcome : Except ℕ Unit
  changedFilePathsAfter : List String
  log : CycleLog
deriving DecidableEq, Repr

/-- Embedding of `commitChanges` (autoCommit.ts lines 274-429).  The
repository name is `repositoryPath.split('/', 3)[2]`; when the recorded
change set is nonempty, `<repositoryPath>/mml.ini` is pushed onto it (line
301), every path is processed by the `for` loop, and then exactly one of
the three tails runs: create tree/commit/ref-update (lines 391-416),
fire-and-forget `commitDeletions` (line 418, not awaited: its outcome is
discarded), or the no-change message.  `changedFilePaths` is reset to `[]`
at line 422 in all three tails; the outer `catch` (lines 424-427) shows a
message and rethrows, leaving the persisted set untouched. -/
def commitChanges (api : GitApi) (openDoc : String → Except ℕ String)
    (repositoryPath : String) (changedFilePaths0 : List String) : CycleResult :=
  let repo := (jsSplit repositoryPath '/' 3).getD 2 ""
  if changedFilePaths0.length > 0 then
    let iniFilePath := repositoryPath ++ "/mml.ini"
    let changedFilePaths := changedFilePaths0 ++ [iniFilePath]
    match ensureBranchExists api with
    | (.error s, _) => ⟨.error s, changedFilePaths0, {errorMessages := 1}⟩
    | (.ok _, _) =>
      match processChangedPaths api openDoc repositoryPath repo
          changedFilePaths ([], [], {}) with
      | .error (s, log) =>
        ⟨.error s, changedFilePaths0,
         {log with errorMessages := log.errorMessages + 1}⟩
      | .ok (treeList, deletedFilePaths, log) =>
        match api.getBranchHeadShaRes with
        | .error s =>
          ⟨.error s, changedFilePaths0,
           {log with errorMessages := log.errorMessages + 1}⟩
        | .ok latestCommitSha =>
          if treeList.length > 0 then
            let log := {log with treeCalls := log.treeCalls ++ [(treeList, latestCommitSha)]}
            match api.createTreeRes with
            | .error s =>
              ⟨.error s, changedFilePaths0,
               {log with errorMessages := log.errorMessages + 1}⟩
            | .ok treeSha =>
              let log := {log with commitCalls := log.commitCalls ++ [(treeSha, [latestCommitSha])]}
              match api.createCommitRes with
              | .error s =>
                ⟨.error s, changedFilePaths0,
                 {log with errorMessages := log.errorMessages + 1}⟩
              | .ok commitSha =>
                let log := {log with refUpdateCalls := log.refUpdateCalls ++ [commitSha]}
                match api.updateRefRes with
                | .error s =>
                  ⟨.error s, changedFilePaths0,
                   {log with errorMessages := log.errorMessages + 1}⟩
                | .ok _ =>
                  ⟨.ok (), [],
                   {log with infoMessages := log.infoMessages ++ ["Committed modified files."]}⟩
          else if deletedFilePaths.length > 0 then
            ⟨.ok (), [],
             {log with deletionOutcome := some (commitDeletions api deletedFilePaths)}⟩
          else
            ⟨.ok (), [],
             {log with infoMessages := log.infoMessages ++ ["No changes to commit."]}⟩
  else ⟨.ok (), changedFilePaths0, {}⟩

/-- Environment of `ensureBranchExists` in a creation race lost to a
concurrent client: the `verifier` branch was absent at the `listBranches`
check, the head lookup yields a sha, and `createRef` then fails with a 409
conflict because the other client created the ref first. -/
def raceLoserApi : GitApi where
  listBranchesRes := .ok ["main"]
  defaultBranchRes := .ok "main"
  getRefSha := fun _ => .ok "basesha"
  createRefRes := .error 409
  getContent := fun _ => .error 404
  createBlob := fun _ => .ok "blobsha"
  getBranchHeadShaRes := .ok "headsha"
  createTreeRes := .ok "treesha"
  createCommitRes := .ok "commitsha"
  updateRefRes := .ok ()
  getBlob := fun _ => .ok "blobsha"

/-- Environment of `ensureBranchExists` when the `verifier` branch is
missing in an ordinary repository whose default branch is `main`: the ref
lookup succeeds only for genuine refs (here `heads/main`), and any other
lookup fails with 404. -/
def missingBranchApi : GitApi where
  listBranchesRes := .ok ["main"]
  defaultBranchRes := .ok "main"
  getRefSha := fun r => if r = "heads/main" then .ok "mainhead" else .error 404
  createRefRes := .ok ()
  getContent := fun _ => .error 404
  createBlob := fun _ => .ok "blobsha"
  getBranchHeadShaRes := .ok "headsha"
  createTreeRes := .ok "treesha"
  createCommitRes := .ok "commitsha"
  updateRefRes := .ok ()
  getBlob := fun _ => .ok "bsha"

/-- Sync-cycle environment for the repository `/owner/repo`: the `verifier`
branch exists, `a.miz` and `mml.ini` are present on it with the given
remote contents, and every creation call succeeds. -/
def scenarioApi (remoteA remoteIni : String) : GitApi where
  listBranchesRes := .ok ["main", "verifier"]
  defaultBranchRes := .ok "main"
  getRefSha := fun r => if r = "heads/main" then .ok "mainhead" else .error 404
  createRefRes := .ok ()
  getContent := fun p =>
    if p = "a.miz" then .ok ⟨remoteA, "shaA"⟩
    else if p = "mml.ini" then .ok ⟨remoteIni, "shaI"⟩
    else .error 404
  createBlob := fun _ => .ok "blobsha"
  getBranchHeadShaRes := .ok "headsha"
  createTreeRes := .ok "treesha"
  createCommitRes := .ok "commitsha"
  updateRefRes := .ok ()
  getBlob := fun _ => .ok "bsha"

/-- Local workspace for the `/owner/repo` scenarios: `a.miz` and `mml.ini`
exist locally with the given contents; any other document fails to open. -/
def scenarioOpenDoc (localA localIni : String) : String → Except ℕ String :=
  fun p =>
    if p = "/owner/repo/a.miz" then .ok localA
    else if p = "/owner/repo/mml.ini" then .ok localIni
    else .error 1

/-- Variant of the `/owner/repo` scenario in which fetching the remote
content of any path other than `mml.ini` fails with a transient 500 while
`mml.ini` is unchanged. -/
def fetchFailApi : GitApi :=
  {scenarioApi "X" "INI" with
    getContent := fun p =>
      if p = "mml.ini" then .ok ⟨"INI", "shaI"⟩ else .error 500}

/-- Variant of the `/owner/repo` scenario in which the final fast-forward
`updateRef` fails with a 422 (non-fast-forward) conflict. -/
def refConflictApi : GitApi :=
  {scenarioApi "OLD" "INI" with updateRefRes := .error 422}

/-! ## mizarFunctions.ts: the snapshot handler

The `.then` callback of the poll fetch (mizarFunctions.ts lines 84-193)
is embedded as a function on an explicit state.  `String.repeat` with a
negative count throws a `RangeError`; such an exception rejects the
awaited promise chain and is modelled by `Except.error`. -/

/-- JS `s.repeat(n)`: `n` copies of `s`, a thrown `RangeError` for `n < 0`. -/
def jsRepeat (s : String) (n : ℤ) : Except String String :=
  if n < 0 then .error "RangeError"
  else .ok (String.join (List.replicate n.toNat s))

/-- Embedding of `padSpace` (mizarFunctions.ts lines 17-20); the source's
default `num = 9` is passed explicitly by the caller here. -/
def padSpace (str : String) (num : ℕ) : Except String String :=
  match jsRepeat " " ((num : ℤ) - str.data.length) with
  | .error e => .error e
  | .ok padding => .ok (str ++ padding)

/-- Embedding of `addMissingHashTags` (mizarFunctions.ts lines 30-45),
returning the new channel contents. -/
def addMissingHashTags (channel : String) (numberOfProgress : ℤ)
    (numberOfErrors : ℕ) : Except String String :=
  if MAX_OUTPUT < numberOfProgress then .ok channel
  else
    match jsRepeat "#" (MAX_OUTPUT - numberOfProgress) with
    | .error e => .error e
    | .ok appendChunk =>
      let channel := channel ++ appendChunk
      let channel :=
        if numberOfErrors ≠ 0 then channel ++ " *" ++ toString numberOfErrors
        else channel
      .ok (channel ++ "\n")

/-- A status snapshot returned by `GET verifier/{id}`. -/
structure Snapshot where
  queueNum : ℤ
  isMakeenvFinish : Bool
  isMakeenvSuccess : Bool
  makeenvText : String
  progressPhases : List String
  progressPercent : ℚ
  numOfErrors : ℕ
  isVerifierFinish : Bool
  isVerifierSuccess : Bool
deriving DecidableEq

/-- The mutable state read and written by the poll handler: the output
channel's contents, the progress counters of `mizarVerify` (lines 64-70),
whether the 1-second interval timer is armed (`intervalId`), the number of
`setDiagnostics` calls, and the settlement of the promise returned by
`mizarVerify` (`resolve`/`reject` settle it only once). -/
structure VerifyState where
  channel : String
  numberOfProgress : ℤ
  trackedPhases : List String
  currentCommand : String
  intervalActive : Bool
  diagnosticsSet : ℕ
  promiseResult : Option (Except String Unit)
deriving DecidableEq

/-- The queue notice written by `channel.replace` (lines 86-89). -/
def queueMessage (q : ℤ) : String :=
  "Your verification request is in queue. \n" ++
  "                        There are " ++ toString q ++ " requests ahead."

/-- The progress-bar header line (lines 105-108). -/
def startEndBar : String :=
  "   Start |----------------------" ++ "--------------------------->| End"

/-- Settling a promise is idempotent: a second `resolve`/`reject` is a
no-op. -/
def settle (old : Option (Except String Unit)) (r : Except String Unit) :
    Option (Except String Unit) :=
  if old.isSome then old else some r

/-- Embedding of the `progressPhases.forEach` loop (lines 145-168),
threading channel, `numberOfProgress` and `trackedPhases` (which the loop
itself mutates by `push`, so later comparisons see the pushed entries).
JS `trackedPhases[i]` is `undefined` when out of range, and
`phase === undefined` is false. -/
def renderPhases (progressPercent : ℚ) (total : ℕ) :
    List String → ℕ → String → ℤ → List String →
    Except String (String × ℤ × List String)
  | [], _, channel, n, tracked => .ok (channel, n, tracked)
  | phase :: rest, i, channel, n, tracked =>
    if tracked.get? i = some phase then
      renderPhases progressPercent total rest (i + 1) channel n tracked
    else if i = total - 1 then
      match padSpace phase 9 with
      | .error e => .error e
      | .ok label =>
        let channel := channel ++ label ++ ":"
        let tracked := tracked ++ [phase]
        let progressDiff := calculateProgressDiff progressPercent n
        match jsRepeat "#" progressDiff with
        | .error e => .error e
        | .ok appendChunk =>
          renderPhases progressPercent total rest (i + 1)
            (channel ++ appendChunk) (n + progressDiff) tracked
    else
      match padSpace phase 9 with
      | .error e => .error e
      | .ok label =>
        let channel := channel ++ label ++ ":"
        let tracked := tracked ++ [phase]
        match jsRepeat "#" MAX_OUTPUT with
        | .error e => .error e
        | .ok appendChunk =>
          renderPhases progressPercent total rest (i + 1)
            (channel ++ appendChunk ++ "\n") n tracked

/-- Embedding of the `isVerifierFinish` block (lines 171-191). -/
def finishCheck (j : Snapshot) (st : VerifyState) : Except String VerifyState :=
  if j.isVerifierFinish then
    match addMissingHashTags st.channel st.numberOfProgress j.numOfErrors with
    | .error e => .error e
    | .ok ch =>
      let ch := ch ++ "\nEnd." ++ "\n"
      let (ch, dg) :=
        if j.isVerifierSuccess = false then
          (ch ++ "\n**** Some errors detected." ++ "\n", st.diagnosticsSet + 1)
        else (ch, st.diagnosticsSet)
      .ok {st with channel := ch, diagnosticsSet := dg, intervalActive := false,
                   promiseResult := settle st.promiseResult (.ok ())}
  else .ok st

/-- Embedding of the poll `.then` callback (mizarFunctions.ts lines
84-193): the queue notice (85-97, which pauses and later re-arms the same
timer), the makeenv block (98-118), and the verifier block (119-192).
Nothing in this callback consults any cancellation flag. -/
def updateProgressHandler (command uriFsPath : String) (j : Snapshot)
    (st : VerifyState) : Except String VerifyState :=
  let st :=
    if j.queueNum > 0 then
      -- lines 90-96: the current interval is cleared and, 5000 ms later,
      -- `setInterval(updateProgress, 1000)` re-arms it, so after this
      -- branch the poll timer is (again) armed.
      {st with channel := queueMessage j.queueNum, intervalActive := true}
    else st
  let st :=
    if j.isMakeenvFinish = true ∧ st.currentCommand = "makeenv" then
      if j.isMakeenvSuccess then
        {st with
          channel := j.makeenvText ++ "\n" ++
            "Running " ++ command ++ " on " ++ uriFsPath ++ "\n" ++ "\n" ++
            startEndBar ++ "\n",
          currentCommand := "verifier"}
      else
        {st with diagnosticsSet := st.diagnosticsSet + 1,
                 intervalActive := false,
                 promiseResult := settle st.promiseResult (.error "makeenv error")}
    else st
  if st.currentCommand = "verifier" then
    if st.trackedPhases.getLast? = j.progressPhases.getLast? then
      let progressDiff := calculateProgressDiff j.progressPercent st.numberOfProgress
      match jsRepeat "#" progressDiff with
      | .error e => .error e
      | .ok appendChunk =>
        finishCheck j {st with channel := st.channel ++ appendChunk,
                               numberOfProgress := st.numberOfProgress + progressDiff}
    else
      match
        (if st.trackedPhases.length ≠ 0 then
          addMissingHashTags st.channel st.numberOfProgress j.numOfErrors
        else .ok st.channel) with
      | .error e => .error e
      | .ok ch =>
        let st := {st with channel := ch, numberOfProgress := 0}
        match renderPhases j.progressPercent j.progressPhases.length
            j.progressPhases 0 st.channel st.numberOfProgress st.trackedPhases with
        | .error e => .error e
        | .ok (ch, n, tracked) =>
          finishCheck j {st with channel := ch, numberOfProgress := n,
                                 trackedPhases := tracked}
  else .ok st

/-- The extension-level state around one job: the `isExecuting` guard of
part_004 line 11, the verify state, and the count of DELETE (cancel)
requests sent to the server. -/
structure ExtState where
  isExecuting : Bool
  verify : VerifyState
  deleteRequests : ℕ
deriving DecidableEq

/-- Embedding of the `stop-command` callback (part_004 lines 145-152): if a
timer is armed it is cleared and a fire-and-forget DELETE is sent; in all
cases `isExecuting` is reset.  No cancelled flag is recorded anywhere. -/
def stopCommand (s : ExtState) : ExtState :=
  if s.verify.intervalActive then
    {s with verify := {s.verify with intervalActive := false},
            deleteRequests := s.deleteRequests + 1,
            isExecuting := false}
  else {s with isExecuting := false}

/-- Arrival of a poll response that was already in flight: the `.then`
callback runs unconditionally; a thrown exception lands in the `.catch`
(lines 194-201), which clears the timer and rejects. -/
def onPollSettled (command uriFsPath : String) (j : Snapshot) (s : ExtState) :
    ExtState :=
  match updateProgressHandler command uriFsPath j s.verify with
  | .ok v => {s with verify := v}
  | .error e =>
    {s with verify :=
      {s.verify with
        intervalActive := false,
        promiseResult := settle s.verify.promiseResult (.error e)}}

/-! ## extension.ts (part_004): the command guard -/

/-- Embedding of `path.extname(p)`: the extension of the final path
segment. -/
def jsExtname (p : String) : String :=
  let base := (splitOnCharList '/' p.data).getLastD []
  match splitOnCharList '.' base with
  | [] => ""
  | [_] => ""
  | parts => "." ++ String.mk (parts.getLastD [])

/-- Embedding of `uri.path.match(/^((\/[^/]+){2})/)` (part_004 line 52):
the leading two nonempty `/`-segments, or `none`. -/
def repositoryPathMatch (p : String) : Option String :=
  match splitOnCharList '/' p.data with
  | [] :: s1 :: s2 :: _ =>
    if s1 ≠ [] ∧ s2 ≠ [] then some ("/" ++ String.mk s1 ++ "/" ++ String.mk s2)
    else none
  | _ => none

/-- Observable client state for one command invocation. -/
structure ClientState where
  isExecuting : Bool
  infoMessages : List String
  errorMessages : List String
  channel : String
  channelVisible : Bool
  diagnosticsCleared : ℕ
  changedFilePaths : List String
  networkCalls : ℕ
deriving DecidableEq

/-- Environment of one command invocation. -/
structure CommandEnv where
  hasActiveEditor : Bool
  uriPath : String
  uriFsPath : String
  oauthToken : String
deriving DecidableEq

/-- Embedding of the closure returned by `returnExecutingFunction`
(part_004 lines 31-86).  `runJob` stands for the body from line 64 on
(save, `commitChanges`, `mizarVerify`, and the `try/catch`); the `finally`
resets `isExecuting`.  The theorem below holds for every such body. -/
def returnExecutingFunction (runJob : ClientState → ClientState)
    (env : CommandEnv) (s : ClientState) : ClientState :=
  if s.isExecuting then
    {s with infoMessages :=
      s.infoMessages ++ ["Another command is already executing."]}
  else if env.hasActiveEditor = false then
    {s with errorMessages := s.errorMessages ++ ["Not currently in .miz file!!"]}
  else if jsExtname env.uriFsPath ≠ ".miz" then
    {s with errorMessages := s.errorMessages ++ ["Not currently in .miz file!!"]}
  else
    match repositoryPathMatch env.uriPath with
    | none => s
    | some _ =>
      if env.oauthToken = "" then
        {s with errorMessages := s.errorMessages ++
          ["You have to set \"Mizar.OAuthToken\" in settings.json."]}
      else
        let s := {s with isExecuting := true, channel := "",
                         channelVisible := true,
                         diagnosticsCleared := s.diagnosticsCleared + 1}
        let s := runJob s
        {s with isExecuting := false}

/-- A job mid-`makeenv`, with the poll timer armed and the promise
pending. -/
def midJobState : ExtState where
  isExecuting := true
  verify :=
    {channel := "", numberOfProgress := 0, trackedPhases := [],
     currentCommand := "makeenv", intervalActive := true, diagnosticsSet := 0,
     promiseResult := none}
  deleteRequests := 0

/-- A snapshot reporting the job still queued behind 3 others. -/
def queuedSnapshot : Snapshot where
  queueNum := 3
  isMakeenvFinish := false
  isMakeenvSuccess := false
  makeenvText := ""
  progressPhases := []
  progressPercent := 0
  numOfErrors := 0
  isVerifierFinish := false
  isVerifierSuccess := false

/-- A client currently executing a command, with some recorded change set
and channel contents. -/
def busyState : ClientState where
  isExecuting := true
  infoMessages := []
  errorMessages := []
  channel := "out"
  channelVisible := true
  diagnosticsCleared := 0
  changedFilePaths := ["/owner/repo/a.miz"]
  networkCalls := 0

/-- Helper: a duplicate-free list all of whose members equal `c` has at most
one element. -/
theorem length_le_one_of_nodup_of_all_eq {l : List ℕ} {c : ℕ}
    (hnd : l.Nodup) (h : ∀ x ∈ l, x = c) : l.length ≤ 1 := by
  cases l with
  | nil => simp
  | cons a t =>
    cases t with
    | nil => simp
    | cons b t2 =>
      exfalso
      have ha := h a (List.mem_cons_self _ _)
      have hb := h b (List.mem_cons_of_mem _ (List.mem_cons_self _ _))
      rw [List.nodup_cons] at hnd
      exact hnd.1 (by rw [ha, ← hb]; exact List.mem_cons_self _ _)

/-- C1, counterexample: with percent = 0 (which lies in [0,100]) and an
emitted count of 1 (which lies in [0, MAX_OUTPUT]), `calculateProgressDiff`
returns a negative delta, refuting "the delta is always >= 0": the source
clamps only the upper bound, never the lower one. -/
theorem calculateProgressDiff_claim_counterexample :
    (0:ℚ) ≤ 0 ∧ (0:ℚ) ≤ 100 ∧ (0:ℤ) ≤ 1 ∧ (1:ℤ) ≤ MAX_OUTPUT ∧
    calculateProgressDiff 0 1 < 0 := by
  refine ⟨le_refl _, by norm_num, by norm_num, by norm_num [MAX_OUTPUT], ?_⟩
  norm_num [calculateProgressDiff, MAX_OUTPUT]

/-- C1, amended: for percent in [0,100] and emitted in [0, MAX_OUTPUT], the
updated count `emitted + delta` always stays within [0, MAX_OUTPUT], and the
delta is nonnegative whenever `floor(MAX_OUTPUT*percent/100)` has not fallen
below the emitted count (in particular whenever the reported percent is
non-decreasing within a phase); under that condition the per-phase emitted
count is monotonically non-decreasing and never exceeds MAX_OUTPUT. -/
theorem calculateProgressDiff_bounds (p : ℚ) (n : ℤ)
    (hp0 : 0 ≤ p) (hn0 : 0 ≤ n) (hn1 : n ≤ MAX_OUTPUT) :
    0 ≤ n + calculateProgressDiff p n ∧
    n + calculateProgressDiff p n ≤ MAX_OUTPUT ∧
    (n ≤ ⌊((MAX_OUTPUT : ℚ) * p) / 100⌋ → 0 ≤ calculateProgressDiff p n) := by
  have hF0 : 0 ≤ ⌊((MAX_OUTPUT : ℚ) * p) / 100⌋ := by
    refine Int.le_floor.mpr ?_
    have : (0:ℚ) ≤ (MAX_OUTPUT : ℚ) := by norm_num [MAX_OUTPUT]
    push_cast
    positivity
  unfold calculateProgressDiff at *
  simp only [MAX_OUTPUT] at *
  split_ifs with h
  · refine ⟨by omega, by omega, fun _ => by omega⟩
  · refine ⟨by omega, by omega, fun hn => by omega⟩

/-- Witness for `calculateProgressDiff_bounds` at percent 40, emitted 10. -/
theorem calculateProgressDiff_bounds_witness :
    (0:ℚ) ≤ 40 ∧ (0:ℤ) ≤ 10 ∧ (10:ℤ) ≤ MAX_OUTPUT ∧
    (0 ≤ 10 + calculateProgressDiff 40 10 ∧
     10 + calculateProgressDiff 40 10 ≤ MAX_OUTPUT ∧
     ((10:ℤ) ≤ ⌊((MAX_OUTPUT : ℚ) * 40) / 100⌋ → 0 ≤ calculateProgressDiff 40 10)) :=
  ⟨by norm_num, by norm_num, by norm_num [MAX_OUTPUT],
   calculateProgressDiff_bounds 40 10 (by norm_num) (by norm_num)
     (by norm_num [MAX_OUTPUT])⟩

/-- Shape of one loop iteration: a successful `processChangedPath` either
leaves the tree list unchanged or appends exactly one entry, whose path is
the repository-relative path of the processed file; it never touches the
recorded `createTree` calls.  A propagating (thrown) iteration also leaves
the recorded `createTree` calls unchanged. -/
theorem processChangedPath_tree_shape (api : GitApi)
    (openDoc : String → Except ℕ String) (rp repo : String)
    (acc : CycleAcc) (p : String) :
    (∀ res, processChangedPath api openDoc rp repo acc p = .ok res →
      (res.1 = acc.1 ∨ ∃ sha, res.1 = acc.1 ++ [⟨repoFilePathOf repo p, sha⟩]) ∧
      res.2.2.treeCalls = acc.2.2.treeCalls) ∧
    (∀ s log, processChangedPath api openDoc rp repo acc p = .error (s, log) →
      log.treeCalls = acc.2.2.treeCalls) := by
  obtain ⟨tl, dl, log⟩ := acc
  constructor
  · intro res h
    simp only [processChangedPath] at h
    repeat' split at h
    all_goals cases h
    all_goals exact ⟨by first | exact Or.inl rfl | exact Or.inr ⟨_, rfl⟩, rfl⟩
  · intro s log2 h
    simp only [processChangedPath] at h
    repeat' split at h
    all_goals cases h
    all_goals rfl

/-- Shape of the whole loop: on success the paths of the produced tree
entries form a sublist of the starting entries' paths followed by the
repository-relative paths of the processed files, and the recorded
`createTree` calls are untouched; a propagating failure also leaves the
recorded `createTree` calls untouched. -/
theorem processChangedPaths_tree_sublist (api : GitApi)
    (openDoc : String → Except ℕ String) (rp repo : String) :
    ∀ (paths : List String) (acc : CycleAcc),
      (∀ res, processChangedPaths api openDoc rp repo paths acc = .ok res →
        (res.1.map TreeEntry.path).Sublist
          ((acc.1.map TreeEntry.path) ++ paths.map (repoFilePathOf repo)) ∧
        res.2.2.treeCalls = acc.2.2.treeCalls) ∧
      (∀ s log, processChangedPaths api openDoc rp repo paths acc = .error (s, log) →
        log.treeCalls = acc.2.2.treeCalls) := by
  intro paths
  induction paths with
  | nil =>
    intro acc
    constructor
    · intro res h
      simp only [processChangedPaths] at h
      cases h
      simp
    · intro s log h
      simp only [processChangedPaths] at h
      cases h
  | cons p rest ih =>
    intro acc
    constructor
    · intro res h
      simp only [processChangedPaths] at h
      rcases hstep : processChangedPath api openDoc rp repo acc p with ⟨s2, log2⟩ | acc'
      · simp only [hstep] at h
        exact (Except.noConfusion h)
      · simp only [hstep] at h
        obtain ⟨hsub, htc⟩ := (ih acc').1 res h
        obtain ⟨hshape, htc2⟩ :=
          (processChangedPath_tree_shape api openDoc rp repo acc p).1 acc' hstep
        refine ⟨?_, htc.trans htc2⟩
        rcases hshape with h1 | ⟨sha, h2⟩
        · rw [h1] at hsub
          refine hsub.trans ?_
          exact List.Sublist.append_left (List.sublist_cons_self _ _) _
        · rw [h2] at hsub
          refine hsub.trans ?_
          simp only [List.map_append, List.map_cons, List.map_nil, List.append_assoc]
          simp
    · intro s log h
      simp only [processChangedPaths] at h
      rcases hstep : processChangedPath api openDoc rp repo acc p with ⟨s2, log2⟩ | acc'
      · simp only [hstep] at h
        cases h
        exact (processChangedPath_tree_shape api openDoc rp repo acc p).2 _ _ hstep
      · simp only [hstep] at h
        have htc := (ih acc').2 s log h
        have htc2 :=
          ((processChangedPath_tree_shape api openDoc rp repo acc p).1 acc' hstep).2
        exact htc.trans htc2

/-- Either no `createTree` call is made, or exactly one, whose tree is the
tree list produced by the loop. -/
theorem commitChanges_treeCalls_shape (api : GitApi)
    (openDoc : String → Except ℕ String) (rp : String) (c0 : List String) :
    (commitChanges api openDoc rp c0).log.treeCalls = [] ∨
    ∃ tl dl log sha,
      processChangedPaths api openDoc rp ((jsSplit rp '/' 3).getD 2 "")
        (c0 ++ [rp ++ "/mml.ini"]) ([], [], {}) = .ok (tl, dl, log) ∧
      (commitChanges api openDoc rp c0).log.treeCalls = [(tl, sha)] := by
  simp only [commitChanges]
  split
  · split
    · exact Or.inl rfl
    · rcases hfold : processChangedPaths api openDoc rp ((jsSplit rp '/' 3).getD 2 "")
          (c0 ++ [rp ++ "/mml.ini"]) ([], [], {}) with ⟨s, log⟩ | ⟨tl, dl, log⟩
      · simp only [hfold]
        exact Or.inl ((processChangedPaths_tree_sublist api openDoc rp
          ((jsSplit rp '/' 3).getD 2 "") (c0 ++ [rp ++ "/mml.ini"]) ([], [], {})).2 s log hfold)
      · have htc0 : log.treeCalls = ([] : List (List TreeEntry × String)) :=
          ((processChangedPaths_tree_sublist api openDoc rp
            ((jsSplit rp '/' 3).getD 2 "") (c0 ++ [rp ++ "/mml.ini"]) ([], [], {})).1
            (tl, dl, log) hfold).2
        simp only [hfold]
        rcases hhead : api.getBranchHeadShaRes with s2 | latest <;> simp only [hhead]
        · exact Or.inl htc0
        · split
          · rcases htr : api.createTreeRes with s3 | ts <;> simp only [htr]
            · exact Or.inr ⟨tl, dl, log, latest, rfl, by simp [htc0]⟩
            · rcases hcm : api.createCommitRes with s4 | cs <;> simp only [hcm]
              · exact Or.inr ⟨tl, dl, log, latest, rfl, by simp [htc0]⟩
              · rcases hup : api.updateRefRes with s5 | u <;> simp only [hup]
                · exact Or.inr ⟨tl, dl, log, latest, rfl, by simp [htc0]⟩
                · exact Or.inr ⟨tl, dl, log, latest, rfl, by simp [htc0]⟩
          · split
            · exact Or.inl htc0
            · exact Or.inl htc0
  · exact Or.inl rfl

/-- C8, counterexample: when the user has edited `mml.ini` itself, the
recorded change set already contains `/owner/repo/mml.ini`; `commitChanges`
appends the same path again (line 301), both occurrences pass the content
diff, and the tree passed to `createTree` contains two entries for the path
`mml.ini`. -/
theorem commitChanges_duplicate_tree_path_counterexample :
    ((commitChanges (scenarioApi "X" "OLD") (scenarioOpenDoc "Y" "NEW")
        "/owner/repo" ["/owner/repo/mml.ini"]).log.treeCalls.map
      (fun c => c.1.map TreeEntry.path)) = [["mml.ini", "mml.ini"]] := by decide

/-- C8, amended: each occurrence of a path in the processed list (the
recorded set plus the appended `<repositoryPath>/mml.ini`) yields at most
one BlobEntry, so whenever those occurrences map to pairwise-distinct
repository-relative paths — in particular whenever `mml.ini` was not itself
recorded as changed — the tree passed to the `createTree` call never
contains two entries for the same path. -/
theorem commitChanges_tree_paths_nodup (api : GitApi)
    (openDoc : String → Except ℕ String) (rp : String) (c0 : List String)
    (hnd : (((c0 ++ [rp ++ "/mml.ini"]).map
      (repoFilePathOf ((jsSplit rp '/' 3).getD 2 ""))).Nodup)) :
    ∀ t ∈ (commitChanges api openDoc rp c0).log.treeCalls,
      (t.1.map TreeEntry.path).Nodup := by
  intro t ht
  rcases commitChanges_treeCalls_shape api openDoc rp c0 with h0 | ⟨tl, dl, log, sha, hfold, htc⟩
  · rw [h0] at ht
    cases ht
  · rw [htc] at ht
    rcases List.mem_singleton.mp ht with rfl
    have hsub := ((processChangedPaths_tree_sublist api openDoc rp
      ((jsSplit rp '/' 3).getD 2 "") (c0 ++ [rp ++ "/mml.ini"]) ([], [], {})).1
      (tl, dl, log) hfold).1
    simp only [List.map_nil, List.nil_append] at hsub
    exact List.Nodup.sublist hsub hnd

/-- Witness for `commitChanges_tree_paths_nodup` on the `/owner/repo`
scenario with change set `{"/owner/repo/a.miz"}` and differing `a.miz`
content: the single tree call's entry paths are duplicate-free. -/
theorem commitChanges_tree_paths_nodup_witness :
    (([⟨"a.miz", "blobsha"⟩] : List TreeEntry).map TreeEntry.path).Nodup :=
  commitChanges_tree_paths_nodup (scenarioApi "OLD" "INI")
    (scenarioOpenDoc "NEW" "INI") "/owner/repo" ["/owner/repo/a.miz"]
    (by decide) ([⟨"a.miz", "blobsha"⟩], "headsha") (by decide)

/-- A list is a Boolean prefix of itself followed by anything. -/
theorem list_isPrefixOf_append (l t : List Char) : l.isPrefixOf (l ++ t) = true := by
  induction l with
  | nil => simp [List.isPrefixOf]
  | cons c cs ih => simp [List.isPrefixOf, ih]

/-- Lemma `(rp ++ x).includes(rp)`: the repository path occurs at
position 0 of any path built by appending to it. -/
theorem jsIncludes_append_self (rp x : String) : jsIncludes (rp ++ x) rp = true := by
  unfold jsIncludes jsIndexOf
  have h0 : (0 : ℕ) ∈ List.range ((rp ++ x).data.length + 1) := by
    simp [List.mem_range]
  have hpred : rp.data.isPrefixOf ((rp ++ x).data.drop 0) = true := by
    have hdata : (rp ++ x).data = rp.data ++ x.data := rfl
    simp [hdata, list_isPrefixOf_append]
  rcases hf : List.find? (fun i => rp.data.isPrefixOf ((rp ++ x).data.drop i))
      (List.range ((rp ++ x).data.length + 1)) with _ | y
  · exact absurd hpred (by simpa using List.find?_eq_none.mp hf 0 h0)
  · rfl

/-- Splitting the loop at its last element: a successful run over
`paths ++ [q]` is a successful run over `paths` followed by one successful
iteration on `q`. -/
theorem processChangedPaths_append_last (api : GitApi)
    (od : String → Except ℕ String) (rp repo : String) :
    ∀ (paths : List String) (q : String) (acc res : CycleAcc),
      processChangedPaths api od rp repo (paths ++ [q]) acc = .ok res →
      ∃ mid, processChangedPaths api od rp repo paths acc = .ok mid ∧
        processChangedPath api od rp repo mid q = .ok res := by
  intro paths
  induction paths with
  | nil =>
    intro q acc res h
    simp only [List.nil_append, processChangedPaths] at h
    rcases hstep : processChangedPath api od rp repo acc q with ⟨s2, log2⟩ | acc'
    · simp only [hstep] at h
      exact Except.noConfusion h
    · simp only [hstep, processChangedPaths] at h
      cases h
      exact ⟨acc, rfl, hstep⟩
  | cons p rest ih =>
    intro q acc res h
    simp only [List.cons_append, processChangedPaths] at h
    rcases hstep : processChangedPath api od rp repo acc p with ⟨s2, log2⟩ | acc'
    · simp only [hstep] at h
      exact Except.noConfusion h
    · simp only [hstep] at h
      obtain ⟨mid, h1, h2⟩ := ih q acc' res h
      refine ⟨mid, ?_, h2⟩
      simp only [processChangedPaths, hstep]
      exact h1

/-- C10: in every sync cycle whose recorded change set is nonempty,
`commitChanges` appends `<repositoryPath>/mml.ini` to the processed list,
so `mml.ini` is content-diffed against the branch (its repository-relative
path is fetched), and whenever its remote content differs from the local
file a BlobEntry for it is placed in the tree that the single `createTree`
call receives — even though `mml.ini` was never recorded as changed. -/
theorem commitChanges_appends_and_diffs_ini (api : GitApi)
    (od : String → Except ℕ String) (rp repo : String) (c0 : List String)
    (tl : List TreeEntry) (dl : List String) (log : CycleLog)
    (li bs hs ts cs : String) (rIni : RemoteFile) (el : EnsureLog)
    (h0 : c0 ≠ [])
    (hrepo : repo = (jsSplit rp '/' 3).getD 2 "")
    (hens : ensureBranchExists api = (.ok (), el))
    (hfold : processChangedPaths api od rp repo (c0 ++ [rp ++ "/mml.ini"])
      ([], [], {}) = .ok (tl, dl, log))
    (hdoc : od (rp ++ "/mml.ini") = .ok li)
    (hget : api.getContent (repoFilePathOf repo (rp ++ "/mml.ini")) = .ok rIni)
    (hne : rIni.content ≠ li)
    (hblob : api.createBlob li = .ok bs)
    (hhead : api.getBranchHeadShaRes = .ok hs)
    (htree : api.createTreeRes = .ok ts)
    (hcommit : api.createCommitRes = .ok cs)
    (hupd : api.updateRefRes = .ok ()) :
    repoFilePathOf repo (rp ++ "/mml.ini") ∈ log.getContentPaths ∧
    (⟨repoFilePathOf repo (rp ++ "/mml.ini"), bs⟩ : TreeEntry) ∈ tl ∧
    (commitChanges api od rp c0).log.treeCalls = [(tl, hs)] := by
  obtain ⟨mid, hmid, hstep⟩ :=
    processChangedPaths_append_last api od rp repo c0 (rp ++ "/mml.ini")
      ([], [], {}) (tl, dl, log) hfold
  obtain ⟨mtl, mdl, mlog⟩ := mid
  simp only [processChangedPath, jsIncludes_append_self, hdoc, hget, hblob, hne,
    Except.ok.injEq, Prod.mk.injEq, ne_eq, not_false_eq_true, if_true,
    ite_true] at hstep
  obtain ⟨htl, hdl, hlog⟩ := hstep
  have hmem_tree : (⟨repoFilePathOf repo (rp ++ "/mml.ini"), bs⟩ : TreeEntry) ∈ tl := by
    rw [← htl]
    simp
  have hmem_get : repoFilePathOf repo (rp ++ "/mml.ini") ∈ log.getContentPaths := by
    rw [← hlog]
    simp
  refine ⟨hmem_get, hmem_tree, ?_⟩
  have htc0 : log.treeCalls = ([] : List (List TreeEntry × String)) :=
    ((processChangedPaths_tree_sublist api od rp repo
      (c0 ++ [rp ++ "/mml.ini"]) ([], [], {})).1 (tl, dl, log) hfold).2
  have hlen : 0 < tl.length := List.length_pos.mpr (List.ne_nil_of_mem hmem_tree)
  simp only [commitChanges, ← hrepo]
  rw [if_pos (by simpa [List.length_pos] using h0)]
  simp only [hens, hfold, hhead, htree, hcommit, hupd]
  rw [if_pos hlen]
  simp [htc0]

/-- Witness for `commitChanges_appends_and_diffs_ini`: change set
`{"/owner/repo/a.miz"}` with `a.miz` unchanged but remote `mml.ini`
(`"OLD"`) differing from the local file (`"NEW"`): `mml.ini` is fetched,
its entry reaches the tree, and the commit's tree call carries it. -/
theorem commitChanges_appends_and_diffs_ini_witness :
    repoFilePathOf "repo" ("/owner/repo" ++ "/mml.ini") ∈ ["a.miz", "mml.ini"] ∧
    (⟨repoFilePathOf "repo" ("/owner/repo" ++ "/mml.ini"), "blobsha"⟩ : TreeEntry) ∈
      [(⟨"mml.ini", "blobsha"⟩ : TreeEntry)] ∧
    (commitChanges (scenarioApi "A" "OLD") (scenarioOpenDoc "A" "NEW") "/owner/repo"
      ["/owner/repo/a.miz"]).log.treeCalls = [([⟨"mml.ini", "blobsha"⟩], "headsha")] :=
  commitChanges_appends_and_diffs_ini (scenarioApi "A" "OLD")
    (scenarioOpenDoc "A" "NEW") "/owner/repo" "repo" ["/owner/repo/a.miz"]
    [⟨"mml.ini", "blobsha"⟩] []
    {blobCalls := ["NEW"], getContentPaths := ["a.miz", "mml.ini"]}
    "NEW" "blobsha" "headsha" "treesha" "commitsha" ⟨"OLD", "shaI"⟩ {}
    (by decide) (by decide) (by decide) (by decide) (by decide) (by decide)
    (by decide) (by decide) (by decide) (by decide) (by decide) (by decide)

/-- C7, counterexample: the stop command clears the timer and resets the
guard, but when the poll response that was already in flight arrives, the
snapshot handler still runs in full — here a queued-status snapshot
rewrites the output channel and even re-arms the poll timer (lines 90-96)
— refuting "the cancelled-job snapshot handler performs no output-channel
writes [and] no job state transition": no cancelled flag exists for the
handler to check. -/
theorem cancelled_poll_response_counterexample :
    (stopCommand midJobState).verify.intervalActive = false ∧
    (stopCommand midJobState).isExecuting = false ∧
    (onPollSettled "verifier" "/owner/repo/a.miz" queuedSnapshot
      (stopCommand midJobState)).verify.channel = queueMessage 3 ∧
    (onPollSettled "verifier" "/owner/repo/a.miz" queuedSnapshot
      (stopCommand midJobState)).verify.channel ≠
      (stopCommand midJobState).verify.channel ∧
    (onPollSettled "verifier" "/owner/repo/a.miz" queuedSnapshot
      (stopCommand midJobState)).verify.intervalActive = true := by decide

/-- C7, amended: cancellation clears the pending timer (so no further poll
is scheduled) and resets the executing guard, but no cancelled flag is set
and the response already in flight is processed normally on arrival — for
any still-queued snapshot arriving mid-`makeenv`, the handler writes the
queue notice to the output channel exactly as it would have without the
cancellation. -/
theorem stop_clears_timer_but_response_processed (command uriFsPath : String)
    (s : ExtState) (j : Snapshot)
    (hq : 0 < j.queueNum) (hm : j.isMakeenvFinish = false)
    (hc : s.verify.currentCommand = "makeenv") :
    (stopCommand s).verify.intervalActive = false ∧
    (stopCommand s).isExecuting = false ∧
    (onPollSettled command uriFsPath j (stopCommand s)).verify.channel =
      queueMessage j.queueNum := by
  have h1 : (stopCommand s).verify.intervalActive = false := by
    unfold stopCommand
    split
    · rfl
    · next hfalse => simpa using hfalse
  have h2 : (stopCommand s).isExecuting = false := by
    unfold stopCommand
    split <;> rfl
  have hcc : (stopCommand s).verify.currentCommand = "makeenv" := by
    unfold stopCommand
    split <;> simpa using hc
  refine ⟨h1, h2, ?_⟩
  unfold onPollSettled updateProgressHandler
  rw [if_pos hq, hm]
  simp [hcc]

/-- Witness for `stop_clears_timer_but_response_processed` on the concrete
mid-`makeenv` job and the queued snapshot. -/
theorem stop_clears_timer_but_response_processed_witness :
    (stopCommand midJobState).verify.intervalActive = false ∧
    (stopCommand midJobState).isExecuting = false ∧
    (onPollSettled "verifier" "/owner/repo/a.miz" queuedSnapshot
      (stopCommand midJobState)).verify.channel = queueMessage 3 :=
  stop_clears_timer_but_response_processed "verifier" "/owner/repo/a.miz"
    midJobState queuedSnapshot (by decide) (by decide) (by decide)

/-- C9: invoking a command while `isExecuting` is set is rejected locally:
the invocation only appends the busy message and returns — for every
command body `runJob`, the network-call count, change set, output channel
and diagnostics are untouched. -/
theorem busy_rejection (runJob : ClientState → ClientState) (env : CommandEnv)
    (s : ClientState) (h : s.isExecuting = true) :
    returnExecutingFunction runJob env s =
      {s with infoMessages :=
        s.infoMessages ++ ["Another command is already executing."]} ∧
    (returnExecutingFunction runJob env s).networkCalls = s.networkCalls ∧
    (returnExecutingFunction runJob env s).changedFilePaths = s.changedFilePaths ∧
    (returnExecutingFunction runJob env s).channel = s.channel ∧
    (returnExecutingFunction runJob env s).diagnosticsCleared = s.diagnosticsCleared := by
  unfold returnExecutingFunction
  rw [if_pos h]
  exact ⟨rfl, rfl, rfl, rfl, rfl⟩

/-- Witness for `busy_rejection` on a concrete busy client (with the
identity as the command body). -/
theorem busy_rejection_witness :
    returnExecutingFunction id
      {hasActiveEditor := true, uriPath := "/owner/repo/a.miz",
       uriFsPath := "/owner/repo/a.miz", oauthToken := "tok"} busyState =
      {busyState with infoMessages :=
        busyState.infoMessages ++ ["Another command is already executing."]} ∧
    (returnExecutingFunction id
      {hasActiveEditor := true, uriPath := "/owner/repo/a.miz",
       uriFsPath := "/owner/repo/a.miz", oauthToken := "tok"} busyState).networkCalls =
      busyState.networkCalls ∧
    (returnExecutingFunction id
      {hasActiveEditor := true, uriPath := "/owner/repo/a.miz",
       uriFsPath := "/owner/repo/a.miz", oauthToken := "tok"} busyState).changedFilePaths =
      busyState.changedFilePaths ∧
    (returnExecutingFunction id
      {hasActiveEditor := true, uriPath := "/owner/repo/a.miz",
       uriFsPath := "/owner/repo/a.miz", oauthToken := "tok"} busyState).channel =
      busyState.channel ∧
    (returnExecutingFunction id
      {hasActiveEditor := true, uriPath := "/owner/repo/a.miz",
       uriFsPath := "/owner/repo/a.miz", oauthToken := "tok"} busyState).diagnosticsCleared =
      busyState.diagnosticsCleared :=
  busy_rejection id
    {hasActiveEditor := true, uriPath := "/owner/repo/a.miz",
     uriFsPath := "/owner/repo/a.miz", oauthToken := "tok"} busyState (by decide)

/-- C2, counterexample: when a poll response takes 1500 ms to settle, the
interval timer (period 1000 ms) issues the second request at t = 1000 while
the first (issued at t = 0) is still in flight, so two requests for the job
are in flight at once: the source uses `setInterval`, which fires on the
fixed cadence regardless of whether the previous request settled. -/
theorem mizarVerify_poll_overlap_counterexample :
    2 ≤ pollsInFlight 1500 1000 2 := by decide

/-- C2, amended: polls are issued on a fixed 1000 ms cadence independent of
settlement; at most one request is in flight at any time only under the
additional assumption that every response settles within the 1000 ms
interval. -/
theorem mizarVerify_polls_sequential_when_fast (d : ℕ) (hd : d ≤ 1000)
    (t n : ℕ) : pollsInFlight d t n ≤ 1 := by
  unfold pollsInFlight pollIssueTimes
  apply length_le_one_of_nodup_of_all_eq (c := 1000 * (t / 1000))
  · exact (((List.nodup_range n).map (fun a b hab => by omega)).filter _)
  · intro x hx
    rw [List.mem_filter] at hx
    obtain ⟨hx1, hx2⟩ := hx
    rw [List.mem_map] at hx1
    obtain ⟨k, _, rfl⟩ := hx1
    simp only [decide_eq_true_eq] at hx2
    omega

/-- Witness for `mizarVerify_polls_sequential_when_fast` with 900 ms
latency, observed at t = 1000 with 3 scheduled polls. -/
theorem mizarVerify_polls_sequential_witness :
    900 ≤ 1000 ∧ pollsInFlight 900 1000 3 ≤ 1 :=
  ⟨by decide, mizarVerify_polls_sequential_when_fast 900 (by decide) 1000 3⟩

/-- C4, counterexample: when the racing `createRef` call fails with a 409
conflict, `ensureBranchExists` does not swallow the failure and return
normally — its `catch` block rethrows every error, so the conflict is
surfaced to the caller. -/
theorem ensureBranchExists_conflict_counterexample :
    (ensureBranchExists raceLoserApi).1 = .error 409 ∧
    (ensureBranchExists raceLoserApi).1 ≠ .ok () := by decide

/-- C4, amended: a creation-race conflict is surfaced, not swallowed: if the
`verifier` branch is absent, the ref lookup succeeds, and `createRef` fails
with status `s`, then `ensureBranchExists` rethrows that error to its
caller. -/
theorem ensureBranchExists_surfaces_conflict (api : GitApi)
    (bs : List String) (sha : String) (s : ℕ)
    (hls : api.listBranchesRes = .ok bs)
    (hmem : bs.contains "verifier" = false)
    (href : api.getRefSha ("heads/" ++ jsPromiseToString (getDefaultBranch api)) = .ok sha)
    (hcr : api.createRefRes = .error s) :
    (ensureBranchExists api).1 = .error s := by
  unfold ensureBranchExists
  rw [hls]
  simp only [hmem, href, hcr, Bool.false_eq_true, if_false]

/-- Witness for `ensureBranchExists_surfaces_conflict` on `raceLoserApi`. -/
theorem ensureBranchExists_surfaces_conflict_witness :
    (ensureBranchExists raceLoserApi).1 = .error 409 :=
  ensureBranchExists_surfaces_conflict raceLoserApi ["main"] "basesha" 409
    (by decide) (by decide) (by decide) (by decide)

/-- C5, at the failing input: a repository with default branch `main` and no
`verifier` branch.  Because line 61 omits `await`, the interpolated ref name
is `heads/[object Promise]` rather than `heads/main`; the lookup of that
nonexistent ref throws 404, `createRef` is never reached, and no branch is
created — instead of creating the new ref at the default branch's head. -/
theorem ensureBranchExists_missing_await_bug :
    (ensureBranchExists missingBranchApi).1 = .error 404 ∧
    (ensureBranchExists missingBranchApi).2.refLookups = ["heads/[object Promise]"] ∧
    (ensureBranchExists missingBranchApi).2.createRefShas = [] ∧
    missingBranchApi.getRefSha "heads/main" = .ok "mainhead" := by decide

/-- C3, counterexample: with the change set `{"/owner/repo/a.miz"}`, the
per-path content fetch for `a.miz` fails with a non-404 error (500), yet
`commitChanges` returns normally (only showing an error message) and clears
the persisted `changedFilePaths` even though the sync did not fully
succeed: the inner `catch` (autoCommit.ts lines 358-377) does not rethrow
non-404 errors. -/
theorem commitChanges_swallowed_failure_counterexample :
    fetchFailApi.getContent "a.miz" = .error 500 ∧
    (commitChanges fetchFailApi (scenarioOpenDoc "LOCAL" "INI") "/owner/repo"
      ["/owner/repo/a.miz"]).outcome = .ok () ∧
    (commitChanges fetchFailApi (scenarioOpenDoc "LOCAL" "INI") "/owner/repo"
      ["/owner/repo/a.miz"]).changedFilePathsAfter = [] ∧
    (commitChanges fetchFailApi (scenarioOpenDoc "LOCAL" "INI") "/owner/repo"
      ["/owner/repo/a.miz"]).log.errorMessages = 1 := by decide

/-- C3, amended: every failure that `commitChanges` does surface (branch
ensuring, a blob creation rejected inside the 404-recovery path, fetching
the branch head, tree/commit creation, or the ref fast-forward) leaves the
persisted change set untouched, and the set is reset to empty exactly when
the function returns normally; however, a non-404 per-path content-fetch
or blob-creation failure is swallowed with an error message (the cycle
continues and still clears the set), and `commitDeletions` is
fire-and-forget, so deletion failures neither surface nor prevent the
clearing. -/
theorem commitChanges_error_preserves_changeSet (api : GitApi)
    (openDoc : String → Except ℕ String)
    (repositoryPath : String) (changedFilePaths0 : List String) :
    (∃ s, (commitChanges api openDoc repositoryPath changedFilePaths0).outcome = .error s ∧
      (commitChanges api openDoc repositoryPath changedFilePaths0).changedFilePathsAfter =
        changedFilePaths0) ∨
    ((commitChanges api openDoc repositoryPath changedFilePaths0).outcome = .ok () ∧
      (commitChanges api openDoc repositoryPath changedFilePaths0).changedFilePathsAfter = []) := by
  simp only [commitChanges]
  repeat' split
  all_goals simp_all [List.length_eq_zero]

/-- A 422 non-fast-forward failure on the final ref update is rethrown by
`commitChanges` and leaves the persisted `changedFilePaths` intact. -/
theorem commitChanges_refConflict_preserves_changeSet :
    (commitChanges refConflictApi (scenarioOpenDoc "NEW" "INI") "/owner/repo"
      ["/owner/repo/a.miz"]).outcome = .error 422 ∧
    (commitChanges refConflictApi (scenarioOpenDoc "NEW" "INI") "/owner/repo"
      ["/owner/repo/a.miz"]).changedFilePathsAfter = ["/owner/repo/a.miz"] := by decide

/-- Evaluation fact: `"/owner/repo".split('/', 3)[2]` is `"repo"`. -/
theorem jsSplit_ownerRepo : (jsSplit "/owner/repo" '/' 3).getD 2 "" = "repo" := by
  decide

/-- Evaluation fact: the changed path `/owner/repo/a.miz` contains the
repository path. -/
theorem jsIncludes_amiz : jsIncludes "/owner/repo/a.miz" "/owner/repo" = true := by
  decide

/-- Evaluation fact: the appended `mml.ini` path as built at autoCommit.ts
line 300. -/
theorem iniPath_append : "/owner/repo" ++ "/mml.ini" = "/owner/repo/mml.ini" := rfl

/-- Evaluation fact: the appended path `/owner/repo/mml.ini` contains the
repository path. -/
theorem jsIncludes_ini : jsIncludes "/owner/repo/mml.ini" "/owner/repo" = true := by
  decide

/-- Evaluation fact: the repository-relative path of `/owner/repo/a.miz`. -/
theorem repoRel_amiz : repoFilePathOf "repo" "/owner/repo/a.miz" = "a.miz" := by
  decide

/-- Evaluation fact: the repository-relative path of `/owner/repo/mml.ini`. -/
theorem repoRel_ini : repoFilePathOf "repo" "/owner/repo/mml.ini" = "mml.ini" := by
  decide

/-- Evaluation fact: in the `/owner/repo` scenario the `verifier` branch
already exists, so `ensureBranchExists` is a no-op. -/
theorem ensureBranchExists_scenario (a b : String) :
    ensureBranchExists (scenarioApi a b) = (.ok (), {}) := rfl

/-- C6, counterexample: with change set `{"/owner/repo/a.miz"}` and the
remote content of `a.miz` at the branch head equal to the local content,
the cycle nevertheless creates one blob and one commit, because
`commitChanges` unconditionally appends `<repositoryPath>/mml.ini` to the
set and the remote `mml.ini` here differs from the local one — refuting
"0 blobs, 0 commits created". -/
theorem commitChanges_scenario_counterexample :
    (scenarioApi "SAME" "OLDINI").getContent "a.miz" = .ok ⟨"SAME", "shaA"⟩ ∧
    scenarioOpenDoc "SAME" "NEWINI" "/owner/repo/a.miz" = .ok "SAME" ∧
    (commitChanges (scenarioApi "SAME" "OLDINI") (scenarioOpenDoc "SAME" "NEWINI")
      "/owner/repo" ["/owner/repo/a.miz"]).log.blobCalls = ["NEWINI"] ∧
    (commitChanges (scenarioApi "SAME" "OLDINI") (scenarioOpenDoc "SAME" "NEWINI")
      "/owner/repo" ["/owner/repo/a.miz"]).log.commitCalls = [("treesha", ["headsha"])] := by
  decide

/-- C6, amended: in the `{"/owner/repo/a.miz"}` scenario, under the
additional assumption that the remote `mml.ini` content equals the local
one (`mml.ini` being appended to every nonempty cycle): if the remote
`a.miz` equals the local content the cycle creates 0 blobs, 0 trees,
0 commits and performs 0 ref updates; if it differs the cycle creates
exactly 1 blob, exactly 1 tree (parented on the branch head, with exactly
the 1 new entry), exactly 1 commit with exactly 1 parent, and performs
exactly 1 fast-forward ref update. -/
theorem commitChanges_single_file_scenario (remoteA localA ini : String) :
    (remoteA = localA →
      commitChanges (scenarioApi remoteA ini) (scenarioOpenDoc localA ini)
        "/owner/repo" ["/owner/repo/a.miz"] =
      ⟨.ok (), [],
       {getContentPaths := ["a.miz", "mml.ini"],
        infoMessages := ["No changes to commit."]}⟩) ∧
    (remoteA ≠ localA →
      commitChanges (scenarioApi remoteA ini) (scenarioOpenDoc localA ini)
        "/owner/repo" ["/owner/repo/a.miz"] =
      ⟨.ok (), [],
       {blobCalls := [localA], getContentPaths := ["a.miz", "mml.ini"],
        treeCalls := [([⟨"a.miz", "blobsha"⟩], "headsha")],
        commitCalls := [("treesha", ["headsha"])],
        refUpdateCalls := ["commitsha"],
        infoMessages := ["Committed modified files."]}⟩) := by
  constructor
  · intro h
    subst h
    simp only [commitChanges, jsSplit_ownerRepo, ensureBranchExists_scenario, iniPath_append]
    simp only [processChangedPaths, processChangedPath, scenarioApi, scenarioOpenDoc,
      jsIncludes_amiz, jsIncludes_ini, repoRel_amiz, repoRel_ini]
    simp
  · intro h
    simp only [commitChanges, jsSplit_ownerRepo, ensureBranchExists_scenario, iniPath_append]
    simp only [processChangedPaths, processChangedPath, scenarioApi, scenarioOpenDoc,
      jsIncludes_amiz, jsIncludes_ini, repoRel_amiz, repoRel_ini]
    simp [h]

/-- Witness for `commitChanges_single_file_scenario` at concrete contents:
the equal case with content `"A"` and the differing case with remote
`"OLD"`, local `"NEW"`. -/
theorem commitChanges_single_file_scenario_witness :
    commitChanges (scenarioApi "A" "INI") (scenarioOpenDoc "A" "INI")
        "/owner/repo" ["/owner/repo/a.miz"] =
      ⟨.ok (), [],
       {getContentPaths := ["a.miz", "mml.ini"],
        infoMessages := ["No changes to commit."]}⟩ ∧
    commitChanges (scenarioApi "OLD" "INI") (scenarioOpenDoc "NEW" "INI")
        "/owner/repo" ["/owner/repo/a.miz"] =
      ⟨.ok (), [],
       {blobCalls := ["NEW"], getContentPaths := ["a.miz", "mml.ini"],
        treeCalls := [([⟨"a.miz", "blobsha"⟩], "headsha")],
        commitCalls := [("treesha", ["headsha"])],
        refUpdateCalls := ["commitsha"],
        infoMessages := ["Committed modified files."]}⟩ :=
  ⟨(commitChanges_single_file_scenario "A" "A" "INI").1 rfl,
   (commitChanges_single_file_scenario "OLD" "NEW" "INI").2 (by decide)⟩

end Emvscode
